import Mathlib

/-!
Shallow embedding of src/pubmed_preprint_search.py.

Conventions of the embedding:
* a Python `datetime` value is modelled as an `Int`, the number of seconds
  since 1970-01-01 00:00:00 (the proleptic Gregorian calendar, as `datetime`
  uses); `datetime.date()` truncation is floor division by 86400;
* `timedelta(days = k)` is `k * 86400` seconds, and `(a - b).days` is the
  floor of the second difference divided by 86400 (`Int.fdiv`), exactly as
  `timedelta.days` behaves for negative differences;
* `datetime.now()` is an explicit `now : Int` parameter threaded through the
  functions that the source reads it in;
* the opaque network calls (Entrez/requests) are modelled by handing each
  function the already-parsed payload it would have received; the `page` /
  `results_per_page` arguments of the source only shape those requests and
  so only appear where they influence modelled behaviour;
* a Python exception raised while processing one record is an
  `Except.error ()`; a `continue` that merely skips a record is `.ok none`;
* the HTML display sink at the end of `combine_and_display_results` is out
  of scope (per the specification); the model returns the merged, sorted
  article list that the source renders.
-/

namespace PubmedSearch

/-! ## Calendar arithmetic (the relevant fragment of `datetime`) -/

/-- Leap year test of the Gregorian calendar, as `datetime` validates dates. -/
def isLeap (y : Int) : Bool :=
  y % 4 == 0 && (y % 100 != 0 || y % 400 == 0)

/-- Days in a month, used by `datetime`'s validation of day-of-month. -/
def daysInMonth (y m : Int) : Int :=
  if m = 2 then (if isLeap y then 29 else 28)
  else if m = 4 ∨ m = 6 ∨ m = 9 ∨ m = 11 then 30
  else 31

/-- The (y, m, d) triples `datetime(y, m, d)` accepts without raising. -/
def validYMD (y m d : Int) : Bool :=
  1 ≤ y && y ≤ 9999 && 1 ≤ m && m ≤ 12 && 1 ≤ d && d ≤ daysInMonth y m

/-- Days since 1970-01-01 of a Gregorian date (Hinnant's civil-days formula,
the order structure `datetime` comparisons and `max` rely on). -/
def daysFromCivil (y m d : Int) : Int :=
  let y' := if m ≤ 2 then y - 1 else y
  let era := y'.fdiv 400
  let yoe := y' - era * 400
  let mp := (m + 9) % 12
  let doy := (153 * mp + 2).fdiv 5 + d - 1
  let doe := yoe * 365 + yoe.fdiv 4 - yoe.fdiv 100 + doy
  era * 146097 + doe - 719468

/-- Inverse of `daysFromCivil`: the Gregorian (y, m, d) of a day number,
used to model `strftime("%Y-%m-%d")`. -/
def civilFromDays (z0 : Int) : Int × Int × Int :=
  let z := z0 + 719468
  let era := z.fdiv 146097
  let doe := z - era * 146097
  let yoe := (doe - doe.fdiv 1460 + doe.fdiv 36524 - doe.fdiv 146096).fdiv 365
  let y := yoe + era * 400
  let doy := doe - (365 * yoe + yoe.fdiv 4 - yoe.fdiv 100)
  let mp := (5 * doy + 2).fdiv 153
  let d := doy - (153 * mp + 2).fdiv 5 + 1
  let m := mp + (if mp < 10 then 3 else -9)
  (if m ≤ 2 then y + 1 else y, m, d)

/-- `datetime(y, m, d)` as seconds since the epoch; `none` models the
`ValueError` raised on an out-of-range date. -/
def mkDatetime (y m d : Int) : Option Int :=
  if validYMD y m d then some (86400 * daysFromCivil y m d) else none

/-- `datetime(y, m, d, hh, mm, ss)` (via `strptime` with a time part). -/
def mkDatetimeHMS (y mo d h mi s : Int) : Option Int :=
  if validYMD y mo d && 0 ≤ h && h ≤ 23 && 0 ≤ mi && mi ≤ 59 && 0 ≤ s && s ≤ 59 then
    some (86400 * daysFromCivil y mo d + 3600 * h + 60 * mi + s)
  else none

/-- `datetime.date()`: the calendar day holding a datetime, as a day number.
Ordering and day-difference of `date` objects coincide with those of the
day numbers. -/
def dateOf (t : Int) : Int := t.fdiv 86400

/-- `(a - b).days` of a `timedelta`: floor of the second difference in days. -/
def daysBetween (a b : Int) : Int := (a - b).fdiv 86400

/-- Two-digit zero padding of `strftime`. -/
def pad2 (n : Int) : String :=
  if n < 10 then "0" ++ toString n else toString n

/-- Four-digit zero padding of `strftime("%Y")`. -/
def pad4 (n : Int) : String :=
  if n < 10 then "000" ++ toString n
  else if n < 100 then "00" ++ toString n
  else if n < 1000 then "0" ++ toString n
  else toString n

/-- `strftime("%Y-%m-%d")` of a datetime. -/
def formatYMD (t : Int) : String :=
  let c := civilFromDays (dateOf t)
  pad4 c.1 ++ "-" ++ pad2 c.2.1 ++ "-" ++ pad2 c.2.2

/-! ## Python string helpers used by the source

`str.find`, slicing, `str.strip`, `str.split` and the two `strptime`
formats the source parses dates with, modelled over `List Char`. -/

/-- The whitespace `str.strip` removes (the ASCII fragment). -/
def isPySpace (c : Char) : Bool :=
  c = ' ' || c = '\t' || c = '\n' || c = '\r' || c = '\x0b' || c = '\x0c'

/-- `str.strip()` on a character list. -/
def charsStrip (s : List Char) : List Char :=
  ((s.dropWhile isPySpace).reverse.dropWhile isPySpace).reverse

/-- Scan of `str.find`: first index at or after `i` where `pat` occurs, `-1`
when it never does. -/
def charsFindAux (pat : List Char) : List Char → Int → Int
  | [], i => if pat.isEmpty then i else -1
  | c :: t, i => if pat.isPrefixOf (c :: t) then i else charsFindAux pat t (i + 1)

/-- `s.find(pat)`: index of the first occurrence, `-1` when absent. -/
def charsFind (s pat : List Char) : Int := charsFindAux pat s 0

/-- Normalisation Python applies to one slice index: negative indices count
from the end, then the index is clamped into `[0, n]`. -/
def pyIndexNorm (n : Nat) (i : Int) : Nat :=
  let j := if i < 0 then i + n else i
  (max j 0).toNat.min n

/-- `s[a:b]` on a character list, with Python's index normalisation. -/
def pySlice (s : List Char) (a b : Int) : List Char :=
  (s.take (pyIndexNorm s.length b)).drop (pyIndexNorm s.length a)

/-- `str.strip()` on a `String`. -/
def pyStrip (s : String) : String := String.mk (charsStrip s.data)

/-- Fuel-driven scan of `str.split(sep)` for a non-empty separator: cut at
each left-most separator occurrence (the fuel, the input length, only
bounds the recursion). -/
def charsSplitOnFuel (sep : List Char) : Nat → List Char → List (List Char)
  | _, [] => [[]]
  | 0, l => [l]
  | fuel + 1, c :: rest =>
    if sep.isPrefixOf (c :: rest) then
      [] :: charsSplitOnFuel sep fuel ((c :: rest).drop sep.length)
    else
      match charsSplitOnFuel sep fuel rest with
      | [] => [[c]]
      | seg :: segs => (c :: seg) :: segs

/-- `s.split(sep)` for a non-empty separator. -/
def pySplit (s sep : String) : List String :=
  (charsSplitOnFuel sep.data s.data.length s.data).map String.mk

/-- `sep.join(parts)`. -/
def joinWith (sep : String) : List String → String
  | [] => ""
  | [x] => x
  | x :: y :: rest => x ++ sep ++ joinWith sep (y :: rest)

/-- Digit run check for the `strptime` field patterns. -/
def allDigits (s : List Char) : Bool := !s.isEmpty && s.all (·.isDigit)

/-- Decimal value of a digit run. -/
def digitsToInt (s : List Char) : Int :=
  s.foldl (fun acc c => acc * 10 + ((c.toNat : Int) - 48)) 0

/-- One `strptime` date field: `%Y` is exactly four digits, `%m`/`%d` are one
or two digits; the numeric range is checked by the `datetime` construction. -/
def yField (s : String) : Option Int :=
  if s.length = 4 && allDigits s.data then some (digitsToInt s.data) else none

def twoField (s : String) : Option Int :=
  if (s.length = 1 || s.length = 2) && allDigits s.data then some (digitsToInt s.data)
  else none

/-- `datetime.strptime(s, "%Y-%m-%d")`; `none` models the `ValueError`. -/
def strptimeYMD (s : String) : Option Int :=
  match pySplit s "-" with
  | [ys, ms, ds] =>
    match yField ys, twoField ms, twoField ds with
    | some y, some m, some d => mkDatetime y m d
    | _, _, _ => none
  | _ => none

/-- `datetime.strptime(s, "%Y-%m-%d %H:%M:%S")`; `none` models the
`ValueError` (the single blank of the format is matched literally). -/
def strptimeYMDHMS (s : String) : Option Int :=
  match pySplit s " " with
  | [dp, tp] =>
    match pySplit dp "-", pySplit tp ":" with
    | [ys, ms, ds], [hs, mins, ss] =>
      match yField ys, twoField ms, twoField ds, twoField hs, twoField mins, twoField ss with
      | some y, some mo, some d, some h, some mi, some sec =>
        mkDatetimeHMS y mo d h mi sec
      | _, _, _, _, _, _ => none
    | _, _ => none
  | _ => none

/-! ## Colors and the validity window -/

/-- HTML color codes at the top of the source. -/
def GREEN : String := "#92C353"

def YELLOW : String := "#F2C94C"

def RED : String := "#E57373"

/-- `get_color_by_date(date)`: the generic recency helper (thresholds 3 and
7 days); the source reads `datetime.now()` inside, modelled by `now`. -/
def get_color_by_date (now : Int) (date : Option Int) : String :=
  match date with
  | none => RED
  | some d =>
    let days_ago := daysBetween now d
    if days_ago ≤ 3 then GREEN
    else if days_ago ≤ 7 then YELLOW
    else RED

/-- `get_researchsquare_color(date)` (thresholds 7 and 30 days). -/
def get_researchsquare_color (now date : Int) : String :=
  let days_ago := daysBetween now date
  if days_ago ≤ 7 then "#8FBC8F"
  else if days_ago ≤ 30 then "#DEB887"
  else "#CD5C5C"

/-- `get_pubmed_color(date)`, a closure of `search_articles` over its
`current_date` (thresholds 7 and 30 days). -/
def get_pubmed_color (now date : Int) : String :=
  let days_ago := daysBetween now date
  if days_ago ≤ 7 then "#2E8B57"
  else if days_ago ≤ 30 then "#DAA520"
  else "#B22222"

/-- `get_preprint_color(date)`, a closure of `search_articles` over its
`current_date` (thresholds 7 and 30 days). -/
def get_preprint_color (now date : Int) : String :=
  let days_ago := daysBetween now date
  if days_ago ≤ 7 then "#98FB98"
  else if days_ago ≤ 30 then "#FAFAD2"
  else "#FFA07A"

/-- `is_valid_date(date)`, a closure of `search_articles` over
`current_date` and `max_future_date = current_date + timedelta(days = 30 *
max_future_months)`; the lower bound is `current_date - timedelta(days =
365 * 5)`. -/
def is_valid_date (now maxFutureMonths date : Int) : Bool :=
  decide (now - 86400 * (365 * 5) ≤ date) && decide (date ≤ now + 86400 * (30 * maxFutureMonths))

/-! ## The per-query article record and the timeframe filter -/

/-- One entry of `all_articles` in `search_articles`: the dict
`{'date': ..., 'color': ..., 'html': ..., 'query': ...}`. -/
structure SearchResult where
  date : Int
  color : String
  html : String
  query : String
deriving DecidableEq

/-- `filter_articles_by_timeframe(articles, timeframe)`: an unrecognised
timeframe returns the input unchanged (the source's early return is the
`none` branch of `start?`); otherwise keep the articles whose
`date.date() >= start_date`. -/
def filter_articles_by_timeframe (now : Int) (articles : List SearchResult)
    (timeframe : String) : List SearchResult :=
  let today := dateOf now
  let start? : Option Int :=
    if timeframe = "today" then some today
    else if timeframe = "week" then some (today - 7)
    else if timeframe = "month" then some (today - 30)
    else none
  match start? with
  | none => articles
  | some startDate => articles.filter (fun a => decide (dateOf a.date ≥ startDate))

/-! ## Raw payload records of the three sources -/

/-- One entry of `paper['PubmedData']['History']`. `isDict` models the
`isinstance(date, dict)` test; `pubStatus` is the `'PubStatus'` value when
that key is present; `year`/`month`/`day` are `int(date['Year'])` etc.,
`none` when the key is missing or `int()` raises. -/
structure HistEntry where
  isDict : Bool
  pubStatus : Option String
  year : Option Int
  month : Option Int
  day : Option Int
deriving DecidableEq

/-- One entry of `Article['AuthorList']` (`author.get('LastName', '')`,
`author.get('Initials', '')`). -/
structure PAuthor where
  lastName : String
  initials : String
deriving DecidableEq

/-- One entry of `paper['PubmedData']['ArticleIdList']`: the id text and its
`attributes.get('IdType')`. -/
structure ArticleId where
  idType : Option String
  value : String
deriving DecidableEq

/-- One record of `pubmed_papers['PubmedArticle']`. `history` is `none` when
`'PubmedData' not in paper or 'History' not in paper['PubmedData']`; the
`Option` fields are `none` when the corresponding `.get` would fall back to
its default. -/
structure PubmedPaper where
  history : Option (List HistEntry)
  title : Option String
  authorList : List PAuthor
  journal : Option String
  pmid : Option String
  articleIds : List ArticleId
deriving DecidableEq

/-- One entry of a preprint record's `authors` list
(`author.get('name', 'Unknown Author')`). -/
structure PrAuthor where
  name : Option String
deriving DecidableEq

/-- One record of `preprint_results['collection']`. `date` is `none` when the
`'date'` key is missing (`paper['date']` raises `KeyError`). -/
structure PreprintPaper where
  date : Option String
  title : Option String
  authors : List PrAuthor
  server : Option String
  doi : Option String
deriving DecidableEq

/-- One record of `researchsquare_results['result']['data']`. `posted_at` is
`none` when the key is missing (`paper['posted_at']` raises `KeyError`). -/
structure RSPaper where
  posted_at : Option String
  title : Option String
  authors : Option String
  article_identity : Option String
  doi_version : Option String
deriving DecidableEq

/-- The three parsed payloads `search_articles` receives for one query from
its (opaque) network calls. -/
structure RawPayloads where
  pubmedPapers : List PubmedPaper
  preprintPapers : List PreprintPaper
  researchsquarePapers : List RSPaper
deriving DecidableEq

/-! ## PubMed date extraction (lines 220-228 of the source) -/

/-- `datetime(int(e['Year']), int(e['Month']), int(e['Day']))` for one
history entry; `none` models the exception. -/
def entryDatetime (e : HistEntry) : Option Int :=
  match e.year, e.month, e.day with
  | some y, some m, some d => mkDatetime y m d
  | _, _, _ => none

/-- `max(datetime(...) for date in dates if isinstance(date, dict))` over an
already-filtered entry list: `none` when the sequence is empty (`max`
raises `ValueError`) or any entry's datetime raises. -/
def maxDatetimes : List HistEntry → Option Int
  | [] => none
  | [e] => entryDatetime e
  | e :: e2 :: rest =>
    match entryDatetime e, maxDatetimes (e2 :: rest) with
    | some d, some m => some (max d m)
    | _, _ => none

/-- The `online_date` selection of the PubMed loop: the first dict entry
whose `'PubStatus'` is `'pubmed'`; when there is none, the max of the
datetimes of all dict entries. `.error` models any exception on the way
(caught by the per-record handler). -/
def pubmedOnlineDate (hs : List HistEntry) : Except Unit Int :=
  match hs.find? (fun e => e.isDict && e.pubStatus == some "pubmed") with
  | some e =>
    match entryDatetime e with
    | some d => Except.ok d
    | none => Except.error ()
  | none =>
    match maxDatetimes (hs.filter (fun e => e.isDict)) with
    | some m => Except.ok m
    | none => Except.error ()

/-! ## Record normalisation (the three per-source loop bodies) -/

/-- The author string of the PubMed branch: first three `"LastName
Initials"` entries joined by `", "`, with `' et al.'` appended when more
than three authors exist. -/
def pubmedAuthors (l : List PAuthor) : String :=
  let s := joinWith ", " ((l.take 3).map (fun a => a.lastName ++ " " ++ a.initials))
  if l.length > 3 then s ++ " et al." else s

/-- The DOI hyperlink of the PubMed branch: the first article id whose
`IdType` is `'doi'`, rendered as an anchor, `'Not available'` when absent
(or when the found id text is empty, which is falsy in parsed form). -/
def pubmedDoiLink (ids : List ArticleId) : String :=
  match ids.find? (fun i => i.idType == some "doi") with
  | some i =>
    if i.value = "" then "Not available"
    else "<a href=\"https://doi.org/" ++ i.value ++ "\" target=\"_blank\">" ++ i.value ++ "</a>"
  | none => "Not available"

/-- The f-string of the PubMed branch (lines 257-266), whitespace included. -/
def pubmedHtml (color title authors journal dateStr pmid doiLink : String) : String :=
  "\n                <div style=\"margin-bottom: 20px; padding: 10px; background-color: "
    ++ color ++ ";\">\n                    <h3>" ++ title
    ++ "</h3>\n                    <p><strong>Authors:</strong> " ++ authors
    ++ "</p>\n                    <p><strong>Journal:</strong> " ++ journal
    ++ "</p>\n                    <p><strong>Date:</strong> " ++ dateStr
    ++ "</p>\n                    <p><strong>PMID:</strong> " ++ pmid
    ++ "</p>\n                    <p><strong>DOI:</strong> " ++ doiLink
    ++ "</p>\n                </div>\n                "

/-- Normalisation of one PubMed record (lines 217-270): no history structure
skips the record (`continue`); a failed date extraction is the caught
exception; a date outside the validity window skips the record. -/
def normalizePubmed (now maxFutureMonths : Int) (query : String)
    (paper : PubmedPaper) : Except Unit (Option SearchResult) :=
  match paper.history with
  | none => Except.ok none
  | some hs =>
    match pubmedOnlineDate hs with
    | Except.error _ => Except.error ()
    | Except.ok online_date =>
      if is_valid_date now maxFutureMonths online_date then
        let color := get_pubmed_color now online_date
        let title := paper.title.getD "No Title Available"
        let authors := pubmedAuthors paper.authorList
        let journal := paper.journal.getD "Unknown Journal"
        let pmid := paper.pmid.getD "Unknown PMID"
        let doi_link := pubmedDoiLink paper.articleIds
        Except.ok (some
          { date := online_date, color := color,
            html := pubmedHtml color title authors journal (formatYMD online_date) pmid doi_link,
            query := query })
      else Except.ok none

/-- The author string of the preprint branch: first three `name` fields
joined by `", "`, `' et al.'` when more than three authors exist. -/
def preprintAuthors (l : List PrAuthor) : String :=
  let s := joinWith ", " ((l.take 3).map (fun a => a.name.getD "Unknown Author"))
  if l.length > 3 then s ++ " et al." else s

/-- The DOI hyperlink of the preprint branch (`doi` defaults to `''`, which
is falsy). -/
def preprintDoiLink (doi : String) : String :=
  if doi = "" then "Not available"
  else "<a href=\"https://doi.org/" ++ doi ++ "\" target=\"_blank\">" ++ doi ++ "</a>"

/-- The f-string of the preprint branch (lines 293-301). -/
def preprintHtml (color title authors server dateStr doiLink : String) : String :=
  "\n                <div style=\"margin-bottom: 20px; padding: 10px; background-color: "
    ++ color ++ ";\">\n                    <h3>" ++ title
    ++ "</h3>\n                    <p><strong>Authors:</strong> " ++ authors
    ++ "</p>\n                    <p><strong>Server:</strong> " ++ server
    ++ "</p>\n                    <p><strong>Date:</strong> " ++ dateStr
    ++ "</p>\n                    <p><strong>DOI:</strong> " ++ doiLink
    ++ "</p>\n                </div>\n                "

/-- Normalisation of one preprint record (lines 273-305): a missing or
unparseable `date` is the caught exception; a date outside the validity
window skips the record. -/
def normalizePreprint (now maxFutureMonths : Int) (query : String)
    (paper : PreprintPaper) : Except Unit (Option SearchResult) :=
  match paper.date with
  | none => Except.error ()
  | some ds =>
    match strptimeYMD ds with
    | none => Except.error ()
    | some date_posted =>
      if is_valid_date now maxFutureMonths date_posted then
        let color := get_preprint_color now date_posted
        let title := paper.title.getD "No Title Available"
        let authors := preprintAuthors paper.authors
        let server := paper.server.getD "Unknown Server"
        let doi_link := preprintDoiLink (paper.doi.getD "")
        Except.ok (some
          { date := date_posted, color := color,
            html := preprintHtml color title authors server (formatYMD date_posted) doi_link,
            query := query })
      else Except.ok none

/-- The author string of the ResearchSquare branch: the comma-separated
`authors` string split on `,`, each part stripped, first three joined by
`", "`, `' et al.'` when the split has more than three parts. -/
def researchsquareAuthors (authors : String) : String :=
  let parts := pySplit authors ","
  let s := joinWith ", " ((parts.take 3).map pyStrip)
  if parts.length > 3 then s ++ " et al." else s

/-- The ResearchSquare permalink anchor. -/
def researchsquareLink (articleIdentity doiVersion : String) : String :=
  "<a href=\"https://www.researchsquare.com/article/" ++ articleIdentity ++ "/v"
    ++ doiVersion ++ "\" target=\"_blank\">ResearchSquare Link</a>"

/-- The f-string of the ResearchSquare branch (lines 328-335). -/
def researchsquareHtml (color title authors dateStr rsLink : String) : String :=
  "\n                <div style=\"margin-bottom: 20px; padding: 10px; background-color: "
    ++ color ++ ";\">\n                    <h3>" ++ title
    ++ "</h3>\n                    <p><strong>Authors:</strong> " ++ authors
    ++ "</p>\n                    <p><strong>Server:</strong> ResearchSquare"
    ++ "</p>\n                    <p><strong>Date:</strong> " ++ dateStr
    ++ "</p>\n                    <p><strong>Link:</strong> " ++ rsLink
    ++ "</p>\n                </div>\n                "

/-- Normalisation of one ResearchSquare record (lines 308-341): a missing or
unparseable `posted_at` is the caught exception; a date outside the
validity window skips the record. -/
def normalizeResearchsquare (now maxFutureMonths : Int) (query : String)
    (paper : RSPaper) : Except Unit (Option SearchResult) :=
  match paper.posted_at with
  | none => Except.error ()
  | some ps =>
    match strptimeYMDHMS ps with
    | none => Except.error ()
    | some date_posted =>
      if is_valid_date now maxFutureMonths date_posted then
        let color := get_researchsquare_color now date_posted
        let title := paper.title.getD "No Title Available"
        let authors := researchsquareAuthors (paper.authors.getD "")
        let rs_link := researchsquareLink (paper.article_identity.getD "")
          (paper.doi_version.getD "1")
        Except.ok (some
          { date := date_posted, color := color,
            html := researchsquareHtml color title authors (formatYMD date_posted) rs_link,
            query := query })
      else Except.ok none

/-- One source's `for paper in ...: try: ... except: continue` loop: an
exception (`.error`) or a skip (`.ok none`) drops the record and the loop
moves on; the loop itself never propagates an exception. -/
def processBatch {ρ α : Type} (f : ρ → Except Unit (Option α)) : List ρ → List α
  | [] => []
  | p :: ps =>
    match f p with
    | Except.error _ => processBatch f ps
    | Except.ok none => processBatch f ps
    | Except.ok (some a) => a :: processBatch f ps

/-- `search_articles(query, page, results_per_page, timeframe,
max_future_months)` given the parsed payloads its network calls return: the
three per-source loops appended in source order, then the timeframe filter
when `timeframe` is truthy (a non-empty string). -/
def search_articles (now : Int) (payloads : RawPayloads) (query : String)
    (timeframe : Option String) (maxFutureMonths : Int) : List SearchResult :=
  let all_articles :=
    processBatch (normalizePubmed now maxFutureMonths query) payloads.pubmedPapers
      ++ processBatch (normalizePreprint now maxFutureMonths query) payloads.preprintPapers
      ++ processBatch (normalizeResearchsquare now maxFutureMonths query)
          payloads.researchsquarePapers
  match timeframe with
  | none => all_articles
  | some tf =>
    if tf = "" then all_articles
    else filter_articles_by_timeframe now all_articles tf

/-! ## The cross-query merge (`combine_and_display_results`, lines 349-391) -/

/-- Title extraction of the merge loop (lines 357-359):
`html[html.find('<h3>') + 4 : html.find('</h3>')].strip()`. -/
def extract_title (html : String) : String :=
  let s := html.data
  let title_start := charsFind s "<h3>".data + 4
  let title_end := charsFind s "</h3>".data
  String.mk (charsStrip (pySlice s title_start title_end))

/-- One value of `seen_titles`: a search result dict after the merge loop
added its `'queries'` key. -/
structure MergedArticle where
  date : Int
  color : String
  html : String
  query : String
  queries : List String
deriving DecidableEq

/-- The in-place update `seen_titles[title]['queries'].append(query)`
applied to one stored entry when its key is `t`. -/
def updEntry (t q : String) (e : String × MergedArticle) : String × MergedArticle :=
  if e.1 = t then (e.1, { e.2 with queries := e.2.queries ++ [q] }) else e

/-- The body of the merge loop for one result: extract the title; if it was
seen, append the query to the stored entry's list, otherwise store the
result with `queries = [query]` (a Python dict keeps insertion order, so
the new entry goes last). -/
def addResult (seen : List (String × MergedArticle)) (query : String)
    (result : SearchResult) : List (String × MergedArticle) :=
  let title := extract_title result.html
  if seen.any (fun e => e.1 == title) then
    seen.map (updEntry title query)
  else
    seen ++ [(title,
      { date := result.date, color := result.color, html := result.html,
        query := result.query, queries := [query] })]

/-- The full `seen_titles` dict after both loops of
`combine_and_display_results` ran over every (query, per-query results)
pair, keys in insertion order. -/
def combineSeen (queryResults : List (String × List SearchResult)) :
    List (String × MergedArticle) :=
  queryResults.foldl (fun seen qr => qr.2.foldl (fun s r => addResult s qr.1 r) seen) []

/-- The (query, result) occurrences the two nested merge loops visit, in
visit order. -/
def occList : List (String × List SearchResult) → List (String × SearchResult)
  | [] => []
  | qr :: rest => qr.2.map (fun r => (qr.1, r)) ++ occList rest

/-- The occurrences whose extracted title is `t`, in visit order. -/
def occsFor (ps : List (String × SearchResult)) (t : String) :
    List (String × SearchResult) :=
  ps.filter (fun p => extract_title p.2.html == t)

/-- The merged article a title's occurrence list determines: the fields of
the first occurrence, with the queries of every occurrence in visit
order. (The `[]` case is never reached by a stored entry.) -/
def mergedOf : List (String × SearchResult) → MergedArticle
  | [] => { date := 0, color := "", html := "", query := "", queries := [] }
  | (q0, r0) :: rest =>
    { date := r0.date, color := r0.color, html := r0.html, query := r0.query,
      queries := ((q0, r0) :: rest).map Prod.fst }

/-- Stable insertion keeping the list non-increasing by date: the new
element goes before the first stored element whose date is not greater, so
earlier elements win ties. -/
def insertDesc (a : MergedArticle) : List MergedArticle → List MergedArticle
  | [] => [a]
  | b :: bs => if a.date < b.date then b :: insertDesc a bs else a :: b :: bs

/-- `all_results.sort(key=lambda x: x['date'], reverse=True)`: Python's sort
is stable, and a stable non-increasing sort is exactly this insertion
sort. -/
def sortDesc : List MergedArticle → List MergedArticle
  | [] => []
  | a :: rest => insertDesc a (sortDesc rest)

/-- The per-query pipeline runs of `combine_and_display_results`: for each
query (in order) the `search_articles` list computed from the payloads the
network returns for that query. -/
def pipelineResults (now : Int) (fetch : String → RawPayloads) (queries : List String)
    (timeframe : Option String) (maxFutureMonths : Int) :
    List (String × List SearchResult) :=
  queries.map (fun q => (q, search_articles now (fetch q) q timeframe maxFutureMonths))

/-- `combine_and_display_results(queries, page, results_per_page, timeframe,
max_future_months)`: merge every query's results by extracted title, then
sort by date, most recent first. The HTML rendering and `display` sink are
outside the modelled core; the function yields the sorted article list the
source renders. -/
def combine_and_display_results (now : Int) (fetch : String → RawPayloads)
    (queries : List String) (timeframe : Option String) (maxFutureMonths : Int) :
    List MergedArticle :=
  sortDesc ((combineSeen (pipelineResults now fetch queries timeframe maxFutureMonths)).map
    Prod.snd)

/-! ## The retry loop of `search_pubmed` (lines 21-53)

The network is an oracle giving each attempt's outcome; `time.sleep(delay)`
is recorded in the trace's `sleeps` list; `attemptsMade` counts the
requests issued. -/

/-- An exception from one request: `HTTPError` with its status code, or any
other exception. -/
inductive PyErr
  | http (code : Int)
  | other
deriving DecidableEq

/-- How a run of the retry loop ends: `return results`, a re-`raise`, or
falling out of the loop into the final `raise` (possible only when
`max_retries <= 0`). -/
inductive RetryOutcome (α : Type)
  | success (a : α)
  | raised (e : PyErr)
  | exhausted
deriving DecidableEq

/-- The observable trace of one run of the retry loop. -/
structure RetryTrace (α : Type) where
  outcome : RetryOutcome α
  attemptsMade : Nat
  sleeps : List Int
deriving DecidableEq

/-- The `for attempt in range(max_retries)` loop, with `remaining =
max_retries - attempt` as structural fuel: an HTTP 500 before the last
permitted attempt sleeps `delay` and doubles it; anything else re-raises. -/
def retryGo {α : Type} (oracle : Nat → Except PyErr α) (maxRetries : Nat) :
    Nat → Nat → Int → List Int → RetryTrace α
  | 0, attempt, _, sleeps => ⟨RetryOutcome.exhausted, attempt, sleeps⟩
  | remaining + 1, attempt, delay, sleeps =>
    match oracle attempt with
    | Except.ok a => ⟨RetryOutcome.success a, attempt + 1, sleeps⟩
    | Except.error (PyErr.http code) =>
      if code = 500 ∧ attempt < maxRetries - 1 then
        retryGo oracle maxRetries remaining (attempt + 1) (delay * 2) (sleeps ++ [delay])
      else ⟨RetryOutcome.raised (PyErr.http code), attempt + 1, sleeps⟩
    | Except.error PyErr.other => ⟨RetryOutcome.raised PyErr.other, attempt + 1, sleeps⟩

/-- `search_pubmed(query, page, results_per_page, max_retries,
initial_delay)`: the retry loop started at attempt 0 with the initial
delay (the request itself is the opaque oracle). -/
def search_pubmed {α : Type} (oracle : Nat → Except PyErr α) (maxRetries : Nat)
    (initialDelay : Int) : RetryTrace α :=
  retryGo oracle maxRetries maxRetries 0 initialDelay []

/-- Whether a per-record result is the caught exception. -/
def isErr {ε α : Type} : Except ε α → Bool
  | Except.error _ => true
  | Except.ok _ => false

/-- The article of a non-exception per-record result, when the record was
kept. -/
def exOk {ε α : Type} : Except ε (Option α) → Option α
  | Except.ok o => o
  | Except.error _ => none

/-- The merge fold over the flattened occurrence list. -/
def foldOccs (ps : List (String × SearchResult)) : List (String × MergedArticle) :=
  ps.foldl (fun s p => addResult s p.1 p.2) []

/-- How many stored entries carry key `t`. -/
def keyCount (S : List (String × MergedArticle)) (t : String) : Nat :=
  S.countP (fun e => e.1 == t)

/-! ## Concrete pipeline inputs used by the witnesses -/

/-- A payload function for witnesses: each query returns one preprint
record titled `T`; the first query's record is dated 1970-01-10, any other
query's 1970-01-12 (a later, hence more recent, date). -/
def witnessFetch : String → RawPayloads := fun q =>
  { pubmedPapers := [],
    preprintPapers :=
      [{ date := some (if q = "covid" then "1970-01-10" else "1970-01-12"),
         title := some "T", authors := [], server := none, doi := none }],
    researchsquarePapers := [] }

/-- The merged output of the witness pipeline run: `now` is 1970-01-10,
queries `["covid", "long covid"]`. -/
def witnessCombined : List MergedArticle :=
  combine_and_display_results 777600 witnessFetch ["covid", "long covid"] none 6

/-- The occurrence list of the witness pipeline run. -/
def witnessOccs : List (String × SearchResult) :=
  occsFor (occList (pipelineResults 777600 witnessFetch ["covid", "long covid"] none 6)) "T"

/-- A default article for safe list indexing in witness statements. -/
def defaultMerged : MergedArticle :=
  { date := 0, color := "", html := "", query := "", queries := [] }

/-- A default occurrence for safe list indexing in witness statements. -/
def defaultOcc : String × SearchResult := ("", { date := 0, color := "", html := "", query := "" })

/-! ## Lemmas: the stable descending sort -/

theorem mem_insertDesc {a x : MergedArticle} {l : List MergedArticle} :
    x ∈ insertDesc a l ↔ x = a ∨ x ∈ l := by
  induction l with
  | nil => simp [insertDesc]
  | cons b bs ih =>
    simp only [insertDesc]
    split
    · simp only [List.mem_cons, ih]
      tauto
    · simp [List.mem_cons]

theorem insertDesc_perm (a : MergedArticle) (l : List MergedArticle) :
    (insertDesc a l).Perm (a :: l) := by
  induction l with
  | nil => exact List.Perm.refl _
  | cons b bs ih =>
    simp only [insertDesc]
    split
    · exact (ih.cons b).trans (List.Perm.swap a b bs)
    · exact List.Perm.refl _

theorem sortDesc_perm (l : List MergedArticle) : (sortDesc l).Perm l := by
  induction l with
  | nil => exact List.Perm.refl _
  | cons a rest ih => exact (insertDesc_perm a (sortDesc rest)).trans (ih.cons a)

theorem insertDesc_pairwise {a : MergedArticle} {l : List MergedArticle}
    (h : l.Pairwise (fun x y => y.date ≤ x.date)) :
    (insertDesc a l).Pairwise (fun x y => y.date ≤ x.date) := by
  induction l with
  | nil => simp [insertDesc]
  | cons b bs ih =>
    rcases List.pairwise_cons.1 h with ⟨hb, hbs⟩
    simp only [insertDesc]
    split
    case isTrue hlt =>
      refine List.pairwise_cons.2 ⟨?_, ih hbs⟩
      intro x hx
      rcases mem_insertDesc.1 hx with rfl | hx
      · exact le_of_lt hlt
      · exact hb x hx
    case isFalse hge =>
      refine List.pairwise_cons.2 ⟨?_, h⟩
      intro x hx
      have hba : b.date ≤ a.date := not_lt.1 hge
      rcases List.mem_cons.1 hx with rfl | hx
      · exact hba
      · exact le_trans (hb x hx) hba

theorem sortDesc_pairwise (l : List MergedArticle) :
    (sortDesc l).Pairwise (fun x y => y.date ≤ x.date) := by
  induction l with
  | nil => simp [sortDesc]
  | cons a rest ih => exact insertDesc_pairwise ih

theorem filter_insertDesc (a : MergedArticle) (l : List MergedArticle) (d : Int) :
    (insertDesc a l).filter (fun x => x.date == d)
      = ((a :: l).filter (fun x => x.date == d)) := by
  induction l with
  | nil => rfl
  | cons b bs ih =>
    simp only [insertDesc]
    split
    case isTrue hlt =>
      by_cases hb : b.date = d
      · have ha : ¬ a.date = d := by omega
        simp [List.filter_cons, beq_iff_eq, hb, ha, ih]
      · simp [List.filter_cons, beq_iff_eq, hb, ih]
    case isFalse hge => rfl

theorem sortDesc_filter (l : List MergedArticle) (d : Int) :
    (sortDesc l).filter (fun x => x.date == d) = l.filter (fun x => x.date == d) := by
  induction l with
  | nil => rfl
  | cons a rest ih =>
    simp only [sortDesc, filter_insertDesc, List.filter_cons, ih]

/-! ## Lemmas: batch processing -/

theorem mem_processBatch {ρ α : Type} {f : ρ → Except Unit (Option α)} {l : List ρ} {a : α} :
    a ∈ processBatch f l ↔ ∃ p ∈ l, f p = Except.ok (some a) := by
  induction l with
  | nil => simp [processBatch]
  | cons p ps ih =>
    cases hf : f p with
    | error e => simp [processBatch, hf, ih]
    | ok o =>
      cases o with
      | none => simp [processBatch, hf, ih]
      | some b =>
        simp only [processBatch, hf, List.mem_cons, ih]
        constructor
        · rintro (rfl | ⟨x, hx, hfx⟩)
          · exact ⟨p, Or.inl rfl, hf⟩
          · exact ⟨x, Or.inr hx, hfx⟩
        · rintro ⟨x, (rfl | hx), hfx⟩
          · rw [hf] at hfx
            cases hfx
            exact Or.inl rfl
          · exact Or.inr ⟨x, hx, hfx⟩

theorem processBatch_length_ok {ρ α : Type} (f : ρ → Except Unit (Option α)) (l : List ρ)
    (h : ∀ p ∈ l, (exOk (f p)).isSome = true) :
    (processBatch f l).length = l.length := by
  induction l with
  | nil => rfl
  | cons p ps ih =>
    have hp := h p (List.mem_cons_self p ps)
    have hps := fun x hx => h x (List.mem_cons_of_mem p hx)
    cases hf : f p with
    | error e => rw [hf] at hp; simp [exOk] at hp
    | ok o =>
      cases o with
      | none => rw [hf] at hp; simp [exOk] at hp
      | some b => simp [processBatch, hf, ih hps]

theorem processBatch_length_one_err {ρ α : Type} (f : ρ → Except Unit (Option α)) (l : List ρ)
    (h1 : l.countP (fun p => isErr (f p)) = 1)
    (h2 : ∀ p ∈ l, isErr (f p) = false → (exOk (f p)).isSome = true) :
    (processBatch f l).length = l.length - 1 := by
  induction l with
  | nil => simp at h1
  | cons p ps ih =>
    have h2ps : ∀ x ∈ ps, isErr (f x) = false → (exOk (f x)).isSome = true :=
      fun x hx => h2 x (List.mem_cons_of_mem p hx)
    cases hf : f p with
    | error e =>
      have hcnt : ps.countP (fun p => isErr (f p)) = 0 := by
        rw [List.countP_cons_of_pos _ _ (by simp [hf, isErr])] at h1
        omega
      have hok : ∀ x ∈ ps, (exOk (f x)).isSome = true := by
        intro x hx
        exact h2ps x hx (by
          have := List.countP_eq_zero.1 hcnt x hx
          simpa using this)
      simp [processBatch, hf, processBatch_length_ok f ps hok]
    | ok o =>
      have hcnt : ps.countP (fun p => isErr (f p)) = 1 := by
        rw [List.countP_cons_of_neg _ _ (by rw [hf]; simp [isErr])] at h1
        exact h1
      have hlen : 1 ≤ ps.length := by
        have hle : ps.countP (fun p => isErr (f p)) ≤ ps.length := List.countP_le_length _
        omega
      cases o with
      | none =>
        have := h2 p (List.mem_cons_self p ps) (by rw [hf]; rfl)
        rw [hf] at this
        simp [exOk] at this
      | some b =>
        simp only [processBatch, hf, List.length_cons, ih hcnt h2ps]
        omega

/-! ## Lemmas: every normalized article passed the validity window -/

theorem normalizePubmed_valid {now m : Int} {q : String} {paper : PubmedPaper}
    {a : SearchResult} (h : normalizePubmed now m q paper = Except.ok (some a)) :
    is_valid_date now m a.date = true := by
  unfold normalizePubmed at h
  split at h
  · simp at h
  · split at h
    · simp at h
    · split at h
      case isTrue hv =>
        cases h
        simpa using hv
      case isFalse hv => simp at h

theorem normalizePreprint_valid {now m : Int} {q : String} {paper : PreprintPaper}
    {a : SearchResult} (h : normalizePreprint now m q paper = Except.ok (some a)) :
    is_valid_date now m a.date = true := by
  unfold normalizePreprint at h
  split at h
  · simp at h
  · split at h
    · simp at h
    · split at h
      case isTrue hv =>
        cases h
        simpa using hv
      case isFalse hv => simp at h

theorem normalizeResearchsquare_valid {now m : Int} {q : String} {paper : RSPaper}
    {a : SearchResult} (h : normalizeResearchsquare now m q paper = Except.ok (some a)) :
    is_valid_date now m a.date = true := by
  unfold normalizeResearchsquare at h
  split at h
  · simp at h
  · split at h
    · simp at h
    · split at h
      case isTrue hv =>
        cases h
        simpa using hv
      case isFalse hv => simp at h

theorem mem_filter_timeframe {now : Int} {l : List SearchResult} {tf : String}
    {r : SearchResult} (h : r ∈ filter_articles_by_timeframe now l tf) : r ∈ l := by
  by_cases h1 : tf = "today"
  · simp only [filter_articles_by_timeframe] at h
    rw [if_pos h1] at h
    exact (List.mem_filter.1 h).1
  · by_cases h2 : tf = "week"
    · simp only [filter_articles_by_timeframe] at h
      rw [if_neg h1, if_pos h2] at h
      exact (List.mem_filter.1 h).1
    · by_cases h3 : tf = "month"
      · simp only [filter_articles_by_timeframe] at h
        rw [if_neg h1, if_neg h2, if_pos h3] at h
        exact (List.mem_filter.1 h).1
      · simp only [filter_articles_by_timeframe] at h
        rw [if_neg h1, if_neg h2, if_neg h3] at h
        exact h

theorem search_articles_valid {now : Int} {payloads : RawPayloads} {q : String}
    {tf : Option String} {m : Int} {r : SearchResult}
    (h : r ∈ search_articles now payloads q tf m) :
    is_valid_date now m r.date = true := by
  have hall : r ∈
      processBatch (normalizePubmed now m q) payloads.pubmedPapers
        ++ processBatch (normalizePreprint now m q) payloads.preprintPapers
        ++ processBatch (normalizeResearchsquare now m q) payloads.researchsquarePapers := by
    cases tf with
    | none => exact h
    | some s =>
      by_cases hs : s = ""
      · have h' : r ∈
            (if s = "" then
              processBatch (normalizePubmed now m q) payloads.pubmedPapers
                ++ processBatch (normalizePreprint now m q) payloads.preprintPapers
                ++ processBatch (normalizeResearchsquare now m q) payloads.researchsquarePapers
            else filter_articles_by_timeframe now
              (processBatch (normalizePubmed now m q) payloads.pubmedPapers
                ++ processBatch (normalizePreprint now m q) payloads.preprintPapers
                ++ processBatch (normalizeResearchsquare now m q) payloads.researchsquarePapers)
              s) := h
        rw [if_pos hs] at h'
        exact h'
      · have h' : r ∈
            (if s = "" then
              processBatch (normalizePubmed now m q) payloads.pubmedPapers
                ++ processBatch (normalizePreprint now m q) payloads.preprintPapers
                ++ processBatch (normalizeResearchsquare now m q) payloads.researchsquarePapers
            else filter_articles_by_timeframe now
              (processBatch (normalizePubmed now m q) payloads.pubmedPapers
                ++ processBatch (normalizePreprint now m q) payloads.preprintPapers
                ++ processBatch (normalizeResearchsquare now m q) payloads.researchsquarePapers)
              s) := h
        rw [if_neg hs] at h'
        exact mem_filter_timeframe h'
  rcases List.mem_append.1 hall with h12 | h3
  · rcases List.mem_append.1 h12 with h1 | h2
    · rcases mem_processBatch.1 h1 with ⟨p, _, hp⟩
      exact normalizePubmed_valid hp
    · rcases mem_processBatch.1 h2 with ⟨p, _, hp⟩
      exact normalizePreprint_valid hp
  · rcases mem_processBatch.1 h3 with ⟨p, _, hp⟩
    exact normalizeResearchsquare_valid hp

/-! ## Lemmas: the title-keyed merge -/

theorem foldl_addResult_occ (qrs : List (String × List SearchResult))
    (init : List (String × MergedArticle)) :
    qrs.foldl (fun seen qr => qr.2.foldl (fun s r => addResult s qr.1 r) seen) init
      = (occList qrs).foldl (fun s p => addResult s p.1 p.2) init := by
  induction qrs generalizing init with
  | nil => rfl
  | cons qr rest ih =>
    simp only [List.foldl_cons, occList, List.foldl_append, List.foldl_map]
    exact ih _

theorem combineSeen_eq_foldOccs (qrs : List (String × List SearchResult)) :
    combineSeen qrs = foldOccs (occList qrs) :=
  foldl_addResult_occ qrs []

theorem updEntry_fst (t q : String) (e : String × MergedArticle) :
    (updEntry t q e).1 = e.1 := by
  unfold updEntry
  split <;> rfl

theorem addResult_not_seen {seen : List (String × MergedArticle)} {q : String}
    {r : SearchResult} (h : seen.any (fun e => e.1 == extract_title r.html) = false) :
    addResult seen q r = seen ++ [(extract_title r.html,
      { date := r.date, color := r.color, html := r.html, query := r.query,
        queries := [q] })] := by
  unfold addResult
  simp [h]

theorem addResult_seen {seen : List (String × MergedArticle)} {q : String}
    {r : SearchResult} (h : seen.any (fun e => e.1 == extract_title r.html) = true) :
    addResult seen q r = seen.map (updEntry (extract_title r.html) q) := by
  unfold addResult
  simp [h]

theorem keyCount_append (S T : List (String × MergedArticle)) (t : String) :
    keyCount (S ++ T) t = keyCount S t + keyCount T t :=
  List.countP_append _ _ _

theorem keyCount_map_upd (S : List (String × MergedArticle)) (t0 q t : String) :
    keyCount (S.map (updEntry t0 q)) t = keyCount S t := by
  unfold keyCount
  rw [List.countP_map]
  have heq : ((fun e : String × MergedArticle => e.1 == t) ∘ updEntry t0 q)
      = fun e : String × MergedArticle => e.1 == t := by
    funext e
    simp [Function.comp, updEntry_fst]
  rw [heq]

theorem any_key_eq_true {S : List (String × MergedArticle)} {t : String} :
    (S.any (fun e => e.1 == t) = true) ↔ keyCount S t ≠ 0 := by
  rw [List.any_eq_true, keyCount]
  constructor
  · rintro ⟨e, he, het⟩
    have hpos : 0 < S.countP (fun e => e.1 == t) := List.countP_pos_iff.2 ⟨e, he, het⟩
    omega
  · intro h
    exact List.countP_pos_iff.1 (Nat.pos_of_ne_zero h)

theorem occsFor_append_singleton (ps : List (String × SearchResult))
    (p : String × SearchResult) (t : String) :
    occsFor (ps ++ [p]) t
      = occsFor ps t ++ (if extract_title p.2.html == t then [p] else []) := by
  unfold occsFor
  rw [List.filter_append]
  congr 1
  cases h : extract_title p.2.html == t with
  | true => simp [List.filter_cons, h]
  | false => simp [List.filter_cons, h]

theorem foldOccs_append_singleton (ps : List (String × SearchResult))
    (p : String × SearchResult) :
    foldOccs (ps ++ [p]) = addResult (foldOccs ps) p.1 p.2 := by
  unfold foldOccs
  rw [List.foldl_append]
  rfl

theorem mergedOf_cons (o : String × SearchResult) (rest : List (String × SearchResult)) :
    mergedOf (o :: rest)
      = { date := o.2.date, color := o.2.color, html := o.2.html, query := o.2.query,
          queries := (o :: rest).map Prod.fst } := by
  obtain ⟨oq, orr⟩ := o
  rfl

theorem foldOccs_spec (ps : List (String × SearchResult)) :
    (∀ t, keyCount (foldOccs ps) t = if occsFor ps t = [] then 0 else 1)
    ∧ ∀ x ∈ foldOccs ps, occsFor ps x.1 ≠ [] ∧ x.2 = mergedOf (occsFor ps x.1) := by
  induction ps using List.reverseRecOn with
  | nil =>
    refine ⟨fun t => ?_, fun x hx => ?_⟩
    · simp [foldOccs, keyCount, occsFor]
    · simp [foldOccs] at hx
  | append_singleton ps p ih =>
    obtain ⟨ih1, ih2⟩ := ih
    rw [foldOccs_append_singleton]
    by_cases hocc : occsFor ps (extract_title p.2.html) = []
    · -- first occurrence of this extracted title: the append branch runs
      have hany : (foldOccs ps).any (fun e => e.1 == extract_title p.2.html) = false := by
        cases hb : (foldOccs ps).any (fun e => e.1 == extract_title p.2.html) with
        | false => rfl
        | true =>
          have hne := any_key_eq_true.1 hb
          rw [ih1, if_pos hocc] at hne
          exact absurd rfl hne
      rw [addResult_not_seen hany]
      refine ⟨fun t => ?_, fun x hx => ?_⟩
      · rw [keyCount_append, occsFor_append_singleton]
        by_cases ht : extract_title p.2.html = t
        · subst ht
          have hL : keyCount (foldOccs ps) (extract_title p.2.html) = 0 := by
            rw [ih1, if_pos hocc]
          have hR : keyCount [(extract_title p.2.html,
              { date := p.2.date, color := p.2.color, html := p.2.html, query := p.2.query,
                queries := [p.1] : MergedArticle })] (extract_title p.2.html) = 1 := by
            simp [keyCount]
          rw [hL, hR, hocc]
          simp
        · have hbt : (extract_title p.2.html == t) = false := by simp [ht]
          have hR : keyCount [(extract_title p.2.html,
              { date := p.2.date, color := p.2.color, html := p.2.html, query := p.2.query,
                queries := [p.1] : MergedArticle })] t = 0 := by
            simp [keyCount, hbt]
          rw [hbt, hR, ih1]
          simp
      · rcases List.mem_append.1 hx with hx | hx
        · obtain ⟨hne, hval⟩ := ih2 x hx
          have hxt : (extract_title p.2.html == x.1) = false := by
            simp only [beq_eq_false_iff_ne, ne_eq]
            intro he
            rw [← he] at hne
            exact hne hocc
          rw [occsFor_append_singleton, hxt]
          simpa using ⟨hne, hval⟩
        · rw [List.mem_singleton] at hx
          subst hx
          constructor
          · show occsFor (ps ++ [p]) (extract_title p.2.html) ≠ []
            rw [occsFor_append_singleton, hocc]
            simp
          · show _ = mergedOf (occsFor (ps ++ [p]) (extract_title p.2.html))
            rw [occsFor_append_singleton, hocc]
            simp [mergedOf_cons]
    · -- the title is already stored: the in-place update branch runs
      have hany : (foldOccs ps).any (fun e => e.1 == extract_title p.2.html) = true := by
        rw [any_key_eq_true, ih1, if_neg hocc]
        exact one_ne_zero
      rw [addResult_seen hany]
      obtain ⟨o0, orest, horest⟩ : ∃ o0 orest,
          occsFor ps (extract_title p.2.html) = o0 :: orest := by
        cases hcc : occsFor ps (extract_title p.2.html) with
        | nil => exact absurd hcc hocc
        | cons a l => exact ⟨a, l, rfl⟩
      refine ⟨fun t => ?_, fun x hx => ?_⟩
      · rw [keyCount_map_upd, occsFor_append_singleton, ih1]
        by_cases ht : extract_title p.2.html = t
        · subst ht
          rw [if_neg hocc, horest]
          simp
        · have hbt : (extract_title p.2.html == t) = false := by simp [ht]
          rw [hbt]
          simp
      · obtain ⟨e, he, rfl⟩ := List.mem_map.1 hx
        obtain ⟨hne, hval⟩ := ih2 e he
        by_cases h1 : e.1 = extract_title p.2.html
        · have hupd : updEntry (extract_title p.2.html) p.1 e
              = (e.1, { e.2 with queries := e.2.queries ++ [p.1] }) := by
            unfold updEntry
            rw [if_pos h1]
          rw [hupd]
          have hocc2 : occsFor (ps ++ [p]) e.1 = o0 :: (orest ++ [p]) := by
            rw [occsFor_append_singleton, h1]
            simp [horest]
          rw [h1, horest] at hval
          constructor
          · show occsFor (ps ++ [p]) e.1 ≠ []
            rw [hocc2]
            simp
          · show _ = mergedOf (occsFor (ps ++ [p]) e.1)
            rw [hocc2, hval]
            simp [mergedOf_cons]
        · have hupd : updEntry (extract_title p.2.html) p.1 e = e := by
            unfold updEntry
            rw [if_neg (by intro h; exact h1 h)]
          rw [hupd]
          have hxt : (extract_title p.2.html == e.1) = false := by
            simp only [beq_eq_false_iff_ne, ne_eq]
            intro he2
            exact h1 he2.symm
          rw [occsFor_append_singleton, hxt]
          simpa using ⟨hne, hval⟩

theorem foldOccs_keyCount (ps : List (String × SearchResult)) (t : String) :
    keyCount (foldOccs ps) t = if occsFor ps t = [] then 0 else 1 :=
  (foldOccs_spec ps).1 t

theorem foldOccs_entry {ps : List (String × SearchResult)}
    {x : String × MergedArticle} (hx : x ∈ foldOccs ps) :
    occsFor ps x.1 ≠ [] ∧ x.2 = mergedOf (occsFor ps x.1) :=
  (foldOccs_spec ps).2 x hx

theorem foldOccs_entry_title {ps : List (String × SearchResult)}
    {x : String × MergedArticle} (hx : x ∈ foldOccs ps) :
    extract_title x.2.html = x.1 := by
  obtain ⟨hne, hval⟩ := foldOccs_entry hx
  cases hcc : occsFor ps x.1 with
  | nil => exact absurd hcc hne
  | cons o0 rest =>
    have ho : o0 ∈ occsFor ps x.1 := by
      rw [hcc]
      exact List.mem_cons_self _ _
    have hpred : (extract_title o0.2.html == x.1) = true := (List.mem_filter.1 ho).2
    rw [beq_iff_eq] at hpred
    rw [hval, hcc]
    obtain ⟨oq, orr⟩ := o0
    simpa [mergedOf] using hpred

/-! ## Lemmas: the retry loop -/

theorem retryGo_attempts_le {α : Type} (oracle : Nat → Except PyErr α)
    (maxRetries : Nat) (rem attempt : Nat) (delay : Int) (sleeps : List Int) :
    (retryGo oracle maxRetries rem attempt delay sleeps).attemptsMade ≤ attempt + rem := by
  induction rem generalizing attempt delay sleeps with
  | zero => simp [retryGo]
  | succ n ih =>
    cases ho : oracle attempt with
    | ok a =>
      simp only [retryGo, ho]
      show attempt + 1 ≤ attempt + (n + 1)
      omega
    | error e =>
      cases e with
      | http code =>
        simp only [retryGo, ho]
        split
        · have := ih (attempt + 1) (delay * 2) (sleeps ++ [delay])
          omega
        · show attempt + 1 ≤ attempt + (n + 1)
          omega
      | other =>
        simp only [retryGo, ho]
        show attempt + 1 ≤ attempt + (n + 1)
        omega

theorem search_pubmed_attempts_le {α : Type} (oracle : Nat → Except PyErr α)
    (maxRetries : Nat) (initialDelay : Int) :
    (search_pubmed oracle maxRetries initialDelay).attemptsMade ≤ maxRetries := by
  have h := retryGo_attempts_le oracle maxRetries maxRetries 0 initialDelay []
  simpa [search_pubmed] using h

theorem retryGo_sleeps {α : Type} (oracle : Nat → Except PyErr α)
    (maxRetries : Nat) (rem : Nat) (d0 : Int) :
    ∀ (attempt k : Nat),
    (retryGo oracle maxRetries rem attempt (d0 * 2 ^ k)
        ((List.range k).map (fun i => d0 * 2 ^ i))).sleeps
      = (List.range (retryGo oracle maxRetries rem attempt (d0 * 2 ^ k)
          ((List.range k).map (fun i => d0 * 2 ^ i))).sleeps.length).map
            (fun i => d0 * 2 ^ i) := by
  induction rem with
  | zero => intro attempt k; simp [retryGo]
  | succ n ih =>
    intro attempt k
    cases ho : oracle attempt with
    | ok a => simp [retryGo, ho]
    | error e =>
      cases e with
      | http code =>
        simp only [retryGo, ho]
        split
        · have h1 : d0 * 2 ^ k * 2 = d0 * 2 ^ (k + 1) := by ring
          have h2 : (List.range k).map (fun i => d0 * 2 ^ i) ++ [d0 * 2 ^ k]
              = (List.range (k + 1)).map (fun i => d0 * 2 ^ i) := by
            rw [List.range_succ, List.map_append]
            rfl
          rw [h1, h2]
          exact ih (attempt + 1) (k + 1)
        · simp
      | other => simp [retryGo, ho]

theorem search_pubmed_sleeps {α : Type} (oracle : Nat → Except PyErr α)
    (maxRetries : Nat) (initialDelay : Int) :
    (search_pubmed oracle maxRetries initialDelay).sleeps
      = (List.range (search_pubmed oracle maxRetries initialDelay).sleeps.length).map
          (fun i => initialDelay * 2 ^ i) := by
  have h := retryGo_sleeps oracle maxRetries maxRetries initialDelay 0 0
  simpa [search_pubmed] using h

theorem retry_reach {α : Type} (oracle : Nat → Except PyErr α) (maxRetries : Nat)
    (d : Int) (k : Nat) (hk : k < maxRetries)
    (h500 : ∀ j, j < k → oracle j = Except.error (PyErr.http 500)) :
    search_pubmed oracle maxRetries d
      = retryGo oracle maxRetries (maxRetries - k) k (d * 2 ^ k)
          ((List.range k).map (fun i => d * 2 ^ i)) := by
  induction k with
  | zero => simp [search_pubmed]
  | succ n ih =>
    have hn : n < maxRetries := Nat.lt_of_succ_lt hk
    rw [ih hn (fun j hj => h500 j (Nat.lt_succ_of_lt hj))]
    have hrem : maxRetries - n = (maxRetries - (n + 1)) + 1 := by omega
    rw [hrem]
    simp only [retryGo, h500 n (Nat.lt_succ_self n)]
    rw [if_pos ⟨by trivial, by omega⟩]
    have h1 : d * 2 ^ n * 2 = d * 2 ^ (n + 1) := by ring
    have h2 : (List.range n).map (fun i => d * 2 ^ i) ++ [d * 2 ^ n]
        = (List.range (n + 1)).map (fun i => d * 2 ^ i) := by
      rw [List.range_succ, List.map_append]
      rfl
    rw [h1, h2]

theorem search_pubmed_success3 {α : Type} (oracle : Nat → Except PyErr α)
    (maxRetries : Nat) (d : Int) (a : α) (h3 : 3 ≤ maxRetries)
    (h0 : oracle 0 = Except.error (PyErr.http 500))
    (h1 : oracle 1 = Except.error (PyErr.http 500))
    (h2 : oracle 2 = Except.ok a) :
    search_pubmed oracle maxRetries d
      = ⟨RetryOutcome.success a, 3, [d, d * 2]⟩ := by
  have h500 : ∀ j, j < 2 → oracle j = Except.error (PyErr.http 500) := by
    intro j hj
    match j, hj with
    | 0, _ => exact h0
    | 1, _ => exact h1
  rw [retry_reach oracle maxRetries d 2 (by omega) h500]
  have hrem : maxRetries - 2 = (maxRetries - 3) + 1 := by omega
  rw [hrem]
  simp only [retryGo, h2]
  have hlist : (List.range 2).map (fun i => d * 2 ^ i) = [d, d * 2] := by
    simp [List.range_succ]
  rw [hlist]

theorem search_pubmed_reraise {α : Type} (oracle : Nat → Except PyErr α)
    (maxRetries : Nat) (d : Int) (k : Nat) (e : PyErr) (hk : k < maxRetries)
    (h500 : ∀ j, j < k → oracle j = Except.error (PyErr.http 500))
    (he : oracle k = Except.error e)
    (hlast : e ≠ PyErr.http 500 ∨ k = maxRetries - 1) :
    (search_pubmed oracle maxRetries d).outcome = RetryOutcome.raised e := by
  rw [retry_reach oracle maxRetries d k hk h500]
  have hrem : maxRetries - k = (maxRetries - k - 1) + 1 := by omega
  rw [hrem]
  cases e with
  | http code =>
    simp only [retryGo, he]
    rcases hlast with hne | hlast
    · have hc : ¬ (code = 500 ∧ k < maxRetries - 1) := by
        rintro ⟨rfl, _⟩
        exact hne rfl
      rw [if_neg hc]
    · have hc : ¬ (code = 500 ∧ k < maxRetries - 1) := by
        rintro ⟨_, hlt⟩
        omega
      rw [if_neg hc]
  | other =>
    simp only [retryGo, he]

/-! ## Shared corollaries about the full pipeline -/

theorem combined_mem {now : Int} {fetch : String → RawPayloads} {queries : List String}
    {timeframe : Option String} {maxFutureMonths : Int} {a : MergedArticle}
    (h : a ∈ combine_and_display_results now fetch queries timeframe maxFutureMonths) :
    ∃ x ∈ foldOccs (occList (pipelineResults now fetch queries timeframe maxFutureMonths)),
      a = x.2 := by
  unfold combine_and_display_results at h
  rw [combineSeen_eq_foldOccs] at h
  have h2 := (sortDesc_perm _).mem_iff.1 h
  obtain ⟨x, hx, hxa⟩ := List.mem_map.1 h2
  exact ⟨x, hx, hxa.symm⟩

theorem mem_occList {qrs : List (String × List SearchResult)} {p : String × SearchResult}
    (h : p ∈ occList qrs) : ∃ qr ∈ qrs, p.2 ∈ qr.2 := by
  induction qrs with
  | nil => simp [occList] at h
  | cons qr rest ih =>
    simp only [occList] at h
    rcases List.mem_append.1 h with h | h
    · obtain ⟨r, hr, rfl⟩ := List.mem_map.1 h
      exact ⟨qr, List.mem_cons_self _ _, hr⟩
    · obtain ⟨qr2, hq2, hp⟩ := ih h
      exact ⟨qr2, List.mem_cons_of_mem _ hq2, hp⟩

/-! ## The claims -/

/-- C1: throughout a run of `combine_and_display_results`, whenever the
occurrence list (the results the per-query pipeline yields, flattened in
visit order) holds at least one article whose extracted title (the string
between the first `<h3>` and `</h3>` of the rendered fragment, stripped)
is `t`, the merged output contains exactly one article with that extracted
title, and its queries list is the query string of every occurrence with
that title, in first-seen order, duplicates kept. -/
theorem combine_dedup_by_title (now : Int) (fetch : String → RawPayloads)
    (queries : List String) (timeframe : Option String) (maxFutureMonths : Int)
    (t : String)
    (h : occsFor (occList (pipelineResults now fetch queries timeframe maxFutureMonths)) t
      ≠ []) :
    ((combine_and_display_results now fetch queries timeframe maxFutureMonths).countP
        (fun a => extract_title a.html == t)) = 1
    ∧ ∀ a ∈ combine_and_display_results now fetch queries timeframe maxFutureMonths,
        extract_title a.html = t →
          a.queries = (occsFor (occList (pipelineResults now fetch queries timeframe
            maxFutureMonths)) t).map Prod.fst := by
  constructor
  · unfold combine_and_display_results
    rw [combineSeen_eq_foldOccs]
    rw [(sortDesc_perm _).countP_eq]
    rw [List.countP_map]
    have hcongr : ∀ x ∈ foldOccs (occList (pipelineResults now fetch queries timeframe
        maxFutureMonths)),
        (((fun a => extract_title a.html == t) ∘ Prod.snd) x = true)
          ↔ ((fun e : String × MergedArticle => e.1 == t) x = true) := by
      intro x hx
      have hti := foldOccs_entry_title hx
      simp only [Function.comp]
      rw [hti]
    rw [List.countP_congr hcongr]
    have hkc := foldOccs_keyCount (occList (pipelineResults now fetch queries timeframe
      maxFutureMonths)) t
    rw [keyCount] at hkc
    rw [hkc, if_neg h]
  · intro a ha hat
    obtain ⟨x, hx, rfl⟩ := combined_mem ha
    have htitle := foldOccs_entry_title hx
    have hx1 : x.1 = t := by rw [← htitle, hat]
    obtain ⟨hne, hval⟩ := foldOccs_entry hx
    rw [hx1] at hval
    cases hcc : occsFor (occList (pipelineResults now fetch queries timeframe
        maxFutureMonths)) t with
    | nil => exact absurd (hx1 ▸ hcc) hne
    | cons o0 rest =>
      rw [hval, hcc, mergedOf_cons]

/-- C2: the merged output of `combine_and_display_results` is non-increasing
by date, and for every date the articles carrying it appear in the same
relative order as in the pre-sort merged list, i.e. in first-insertion
order of the title map. -/
theorem combine_sorted_stable (now : Int) (fetch : String → RawPayloads)
    (queries : List String) (timeframe : Option String) (maxFutureMonths : Int) :
    (combine_and_display_results now fetch queries timeframe maxFutureMonths).Pairwise
        (fun x y => y.date ≤ x.date)
    ∧ ∀ d : Int,
        (combine_and_display_results now fetch queries timeframe maxFutureMonths).filter
            (fun x => x.date == d)
          = ((combineSeen (pipelineResults now fetch queries timeframe
              maxFutureMonths)).map Prod.snd).filter (fun x => x.date == d) := by
  constructor
  · exact sortDesc_pairwise _
  · intro d
    exact sortDesc_filter _ d

/-- C3 (amended): `filter_articles_by_timeframe` with `"today"` keeps
exactly the articles whose date, truncated to the calendar day, is today
or later (the source compares with `>=`, not equality); `"week"` keeps
those on or after today minus 7 days, `"month"` those on or after today
minus 30 days, and any other value returns the input unchanged. -/
theorem filter_timeframe_spec (now : Int) (articles : List SearchResult) (tf : String) :
    (filter_articles_by_timeframe now articles "today"
        = articles.filter (fun a => decide (dateOf a.date ≥ dateOf now)))
    ∧ (filter_articles_by_timeframe now articles "week"
        = articles.filter (fun a => decide (dateOf a.date ≥ dateOf now - 7)))
    ∧ (filter_articles_by_timeframe now articles "month"
        = articles.filter (fun a => decide (dateOf a.date ≥ dateOf now - 30)))
    ∧ (tf ≠ "today" → tf ≠ "week" → tf ≠ "month" →
        filter_articles_by_timeframe now articles tf = articles) := by
  refine ⟨rfl, rfl, rfl, fun h1 h2 h3 => ?_⟩
  simp only [filter_articles_by_timeframe]
  rw [if_neg h1, if_neg h2, if_neg h3]

/-- C3 counterexample: with `now` at the epoch, an article dated one day in
the future is kept by the `"today"` filter although its calendar day is not
today, so `"today"` does not keep exactly the articles whose truncated
date equals today. -/
theorem filter_timeframe_today_counterexample :
    filter_articles_by_timeframe 0 [⟨86400, "", "", ""⟩] "today"
      ≠ [(⟨86400, "", "", ""⟩ : SearchResult)].filter
          (fun a => decide (dateOf a.date = dateOf 0)) := by
  decide

/-- C4: `is_valid_date` holds exactly on the window from `now` minus five
years (365 * 5 days, as the source counts them) to `now` plus
`maxFutureMonths` times 30 days, both boundaries inclusive. -/
theorem is_valid_date_iff (now maxFutureMonths date : Int) :
    is_valid_date now maxFutureMonths date = true
      ↔ (now - 5 * 365 * 86400 ≤ date ∧ date ≤ now + maxFutureMonths * 30 * 86400) := by
  simp only [is_valid_date, Bool.and_eq_true, decide_eq_true_eq]
  omega

/-- C5: for the citation-source request, (1) any run issues at most
`maxRetries` attempts, (2) the recorded backoff sleeps are
`initialDelay * 2 ^ k` for the k-th sleep (so the delay before retry k is
`initialDelay * 2 ^ (k - 1)`), (3) a run whose first two attempts fail
with HTTP 500 and whose third succeeds returns that success after exactly
three attempts with sleeps `[initialDelay, 2 * initialDelay]`, and (4) a
non-retryable failure, or an HTTP 500 on the last permitted attempt, is
re-raised to the caller. -/
theorem search_pubmed_retry_spec {α : Type} (oracle : Nat → Except PyErr α)
    (maxRetries : Nat) (initialDelay : Int) :
    (search_pubmed oracle maxRetries initialDelay).attemptsMade ≤ maxRetries
    ∧ (search_pubmed oracle maxRetries initialDelay).sleeps
        = (List.range (search_pubmed oracle maxRetries initialDelay).sleeps.length).map
            (fun i => initialDelay * 2 ^ i)
    ∧ (∀ a : α, 3 ≤ maxRetries →
        oracle 0 = Except.error (PyErr.http 500) →
        oracle 1 = Except.error (PyErr.http 500) →
        oracle 2 = Except.ok a →
        search_pubmed oracle maxRetries initialDelay
          = ⟨RetryOutcome.success a, 3, [initialDelay, initialDelay * 2]⟩)
    ∧ ∀ (k : Nat) (e : PyErr), k < maxRetries →
        (∀ j, j < k → oracle j = Except.error (PyErr.http 500)) →
        oracle k = Except.error e →
        (e ≠ PyErr.http 500 ∨ k = maxRetries - 1) →
        (search_pubmed oracle maxRetries initialDelay).outcome = RetryOutcome.raised e :=
  ⟨search_pubmed_attempts_le oracle maxRetries initialDelay,
   search_pubmed_sleeps oracle maxRetries initialDelay,
   fun a h3 h0 h1 h2 => search_pubmed_success3 oracle maxRetries initialDelay a h3 h0 h1 h2,
   fun k e hk h500 he hl => search_pubmed_reraise oracle maxRetries initialDelay k e hk h500 he hl⟩

/-- C5 witness: an oracle failing with HTTP 500 on the first two attempts
and succeeding on the third, at the default `maxRetries = 3` and
`initialDelay = 1`: the run returns the success after three attempts,
having slept 1 then 2 seconds. -/
theorem search_pubmed_retry_spec_witness :
    search_pubmed
        (fun k => if k < 2 then Except.error (PyErr.http 500) else Except.ok (42 : Nat)) 3 1
      = ⟨RetryOutcome.success 42, 3, [1, 2]⟩ :=
  (search_pubmed_retry_spec
      (fun k => if k < 2 then Except.error (PyErr.http 500) else Except.ok (42 : Nat))
      3 1).2.2.1 42 (by decide) rfl rfl rfl

/-- C6: in a batch of N raw records from any one of the three sources in
which exactly one record makes its normalizer raise (and every other
record normalizes to an article), the per-record handler swallows the
exception and the batch yields exactly N - 1 articles; `processBatch`
returning a plain list is the model of the loop never propagating an
exception. -/
theorem batch_one_malformed (now maxFutureMonths : Int) (q : String)
    (pubs : List PubmedPaper) (pres : List PreprintPaper) (rss : List RSPaper) :
    ((pubs.countP (fun p => isErr (normalizePubmed now maxFutureMonths q p)) = 1 →
      (∀ p ∈ pubs, isErr (normalizePubmed now maxFutureMonths q p) = false →
        (exOk (normalizePubmed now maxFutureMonths q p)).isSome = true) →
      (processBatch (normalizePubmed now maxFutureMonths q) pubs).length
        = pubs.length - 1))
    ∧ ((pres.countP (fun p => isErr (normalizePreprint now maxFutureMonths q p)) = 1 →
      (∀ p ∈ pres, isErr (normalizePreprint now maxFutureMonths q p) = false →
        (exOk (normalizePreprint now maxFutureMonths q p)).isSome = true) →
      (processBatch (normalizePreprint now maxFutureMonths q) pres).length
        = pres.length - 1))
    ∧ ((rss.countP (fun p => isErr (normalizeResearchsquare now maxFutureMonths q p)) = 1 →
      (∀ p ∈ rss, isErr (normalizeResearchsquare now maxFutureMonths q p) = false →
        (exOk (normalizeResearchsquare now maxFutureMonths q p)).isSome = true) →
      (processBatch (normalizeResearchsquare now maxFutureMonths q) rss).length
        = rss.length - 1)) :=
  ⟨fun h1 h2 => processBatch_length_one_err _ _ h1 h2,
   fun h1 h2 => processBatch_length_one_err _ _ h1 h2,
   fun h1 h2 => processBatch_length_one_err _ _ h1 h2⟩

/-- C6 witness: a two-record preprint batch whose second record has the
unparseable date `"zzz"` yields exactly one article. -/
theorem batch_one_malformed_witness :
    (processBatch (normalizePreprint 777600 6 "covid")
        [⟨some "1970-01-10", some "T", [], none, none⟩,
         ⟨some "zzz", some "U", [], none, none⟩]).length = 1 :=
  (batch_one_malformed 777600 6 "covid" []
      [⟨some "1970-01-10", some "T", [], none, none⟩,
       ⟨some "zzz", some "U", [], none, none⟩] []).2.1 (by decide) (by decide)

/-- C8: every color table is boundary-inclusive: the first (recent) tier
holds exactly up to 7 days of age and the middle tier from 8 to 30 days
for the Citation (`get_pubmed_color`), PreprintAggregator
(`get_preprint_color`) and PreprintServer (`get_researchsquare_color`)
tables, the generic helper `get_color_by_date` uses 3 and 7 days, and a
date exactly 7 days before `now` maps to the recent tier of all three
source tables. -/
theorem color_thresholds (now date : Int) :
    (get_pubmed_color now date = "#2E8B57" ↔ daysBetween now date ≤ 7)
    ∧ (get_pubmed_color now date = "#DAA520"
        ↔ (7 < daysBetween now date ∧ daysBetween now date ≤ 30))
    ∧ (get_preprint_color now date = "#98FB98" ↔ daysBetween now date ≤ 7)
    ∧ (get_preprint_color now date = "#FAFAD2"
        ↔ (7 < daysBetween now date ∧ daysBetween now date ≤ 30))
    ∧ (get_researchsquare_color now date = "#8FBC8F" ↔ daysBetween now date ≤ 7)
    ∧ (get_researchsquare_color now date = "#DEB887"
        ↔ (7 < daysBetween now date ∧ daysBetween now date ≤ 30))
    ∧ (get_color_by_date now (some date) = GREEN ↔ daysBetween now date ≤ 3)
    ∧ (get_color_by_date now (some date) = YELLOW
        ↔ (3 < daysBetween now date ∧ daysBetween now date ≤ 7))
    ∧ (get_pubmed_color now (now - 7 * 86400) = "#2E8B57"
        ∧ get_preprint_color now (now - 7 * 86400) = "#98FB98"
        ∧ get_researchsquare_color now (now - 7 * 86400) = "#8FBC8F") := by
  have h7 : daysBetween now (now - 7 * 86400) = 7 := by
    unfold daysBetween
    have harg : now - (now - 7 * 86400) = 604800 := by ring
    rw [harg]
    decide
  refine ⟨?_, ?_, ?_, ?_, ?_, ?_, ?_, ?_, ?_, ?_, ?_⟩
  · simp only [get_pubmed_color]
    split_ifs with h1 h2 <;> simp_all
  · simp only [get_pubmed_color]
    split_ifs with h1 h2 <;> simp_all
  · simp only [get_preprint_color]
    split_ifs with h1 h2 <;> simp_all
  · simp only [get_preprint_color]
    split_ifs with h1 h2 <;> simp_all
  · simp only [get_researchsquare_color]
    split_ifs with h1 h2 <;> simp_all
  · simp only [get_researchsquare_color]
    split_ifs with h1 h2 <;> simp_all
  · simp only [get_color_by_date, GREEN, YELLOW, RED]
    split_ifs with h1 h2 <;> simp_all
  · simp only [get_color_by_date, GREEN, YELLOW, RED]
    split_ifs with h1 h2 <;> simp_all
  · simp only [get_pubmed_color, h7]
    decide
  · simp only [get_preprint_color, h7]
    decide
  · simp only [get_researchsquare_color, h7]
    decide

theorem maxDatetimes_le {l : List HistEntry} :
    ∀ {v : Int}, maxDatetimes l = some v →
      ∀ e ∈ l, ∀ d, entryDatetime e = some d → d ≤ v := by
  induction l with
  | nil => intro v h; simp [maxDatetimes] at h
  | cons e0 rest ih =>
    intro v h
    cases rest with
    | nil =>
      simp only [maxDatetimes] at h
      intro e he d hd
      rw [List.mem_singleton] at he
      subst he
      rw [hd] at h
      cases h
      exact le_refl _
    | cons e1 rest2 =>
      cases h0 : entryDatetime e0 with
      | none => simp [maxDatetimes, h0] at h
      | some d0 =>
        cases hm : maxDatetimes (e1 :: rest2) with
        | none => simp [maxDatetimes, h0, hm] at h
        | some m =>
          simp only [maxDatetimes, h0, hm, Option.some.injEq] at h
          subst h
          intro e he d hd
          rcases List.mem_cons.1 he with rfl | he2
          · rw [h0] at hd
            cases hd
            exact le_max_left _ _
          · exact le_trans (ih hm e he2 d hd) (le_max_right _ _)

theorem maxDatetimes_mem {l : List HistEntry} :
    ∀ {v : Int}, maxDatetimes l = some v → ∃ e ∈ l, entryDatetime e = some v := by
  induction l with
  | nil => intro v h; simp [maxDatetimes] at h
  | cons e0 rest ih =>
    intro v h
    cases rest with
    | nil =>
      simp only [maxDatetimes] at h
      exact ⟨e0, List.mem_cons_self _ _, h⟩
    | cons e1 rest2 =>
      cases h0 : entryDatetime e0 with
      | none => simp [maxDatetimes, h0] at h
      | some d0 =>
        cases hm : maxDatetimes (e1 :: rest2) with
        | none => simp [maxDatetimes, h0, hm] at h
        | some m =>
          simp only [maxDatetimes, h0, hm, Option.some.injEq] at h
          subst h
          rcases le_total m d0 with hle | hle
          · refine ⟨e0, List.mem_cons_self _ _, ?_⟩
            rw [h0, max_eq_left hle]
          · obtain ⟨e, he, hev⟩ := ih hm
            refine ⟨e, List.mem_cons_of_mem _ he, ?_⟩
            rw [hev, max_eq_right hle]

/-- C7 counterexample: a history holding an entry whose status tag is the
literal string `"published"` (dated 1970-01-05) next to an entry tagged
`"pubmed"` (dated 1970-01-03): the normalizer selects the `"pubmed"`
entry's date, not the `"published"` entry's, so the claim's literal
`"published"` tag is wrong on the code. -/
theorem pubmed_published_tag_counterexample :
    pubmedOnlineDate
        [⟨true, some "published", some 1970, some 1, some 5⟩,
         ⟨true, some "pubmed", some 1970, some 1, some 3⟩]
      = Except.ok (2 * 86400)
    ∧ pubmedOnlineDate
        [⟨true, some "published", some 1970, some 1, some 5⟩,
         ⟨true, some "pubmed", some 1970, some 1, some 3⟩]
      ≠ Except.ok (4 * 86400) := by
  constructor
  · rfl
  · intro h
    rw [show pubmedOnlineDate
        [⟨true, some "published", some 1970, some 1, some 5⟩,
         ⟨true, some "pubmed", some 1970, some 1, some 3⟩]
      = Except.ok (2 * 86400) from rfl] at h
    exact absurd (Except.ok.inj h) (by decide)

/-- C7 (amended): the normalizer selects as the article date the first
history entry whose status tag equals `"pubmed"` (the source's literal tag;
the specification's name for it is the "published" status); if no such
entry exists it uses the maximum of all history-entry dates; and a record
with no history date structure at all is skipped and excluded from the
batch output. -/
theorem pubmed_date_selection (paper : PubmedPaper) (now maxFutureMonths : Int)
    (q : String) (hs : List HistEntry) :
    (paper.history = none →
      normalizePubmed now maxFutureMonths q paper = Except.ok none
      ∧ processBatch (normalizePubmed now maxFutureMonths q) [paper] = [])
    ∧ (∀ e d, hs.find? (fun e => e.isDict && e.pubStatus == some "pubmed") = some e →
        entryDatetime e = some d → pubmedOnlineDate hs = Except.ok d)
    ∧ (hs.find? (fun e => e.isDict && e.pubStatus == some "pubmed") = none →
        ∀ dmax, maxDatetimes (hs.filter (fun e => e.isDict)) = some dmax →
          pubmedOnlineDate hs = Except.ok dmax
          ∧ (∀ e ∈ hs, e.isDict = true → ∀ d, entryDatetime e = some d → d ≤ dmax)
          ∧ (∃ e ∈ hs, e.isDict = true ∧ entryDatetime e = some dmax)) := by
  refine ⟨fun hh => ?_, fun e d hf hd => ?_, fun hf dmax hm => ?_⟩
  · constructor
    · simp [normalizePubmed, hh]
    · simp [processBatch, normalizePubmed, hh]
  · simp [pubmedOnlineDate, hf, hd]
  · refine ⟨by simp [pubmedOnlineDate, hf, hm], fun e he hdict d hd => ?_, ?_⟩
    · exact maxDatetimes_le hm e (List.mem_filter.2 ⟨he, hdict⟩) d hd
    · obtain ⟨e, he, hev⟩ := maxDatetimes_mem hm
      obtain ⟨he1, he2⟩ := List.mem_filter.1 he
      exact ⟨e, he1, he2, hev⟩

set_option maxRecDepth 100000 in
set_option maxHeartbeats 1000000 in
/-- C1 witness: two queries, `"covid"` and `"long covid"`, each yielding a
record whose extracted title is `T`: the merged output holds exactly one
article titled `T`, and its queries list is `["covid", "long covid"]`. -/
theorem combine_dedup_by_title_witness :
    witnessCombined.countP (fun a => extract_title a.html == "T") = 1
    ∧ (witnessCombined.getD 0 defaultMerged).queries = ["covid", "long covid"] := by
  have h := combine_dedup_by_title 777600 witnessFetch ["covid", "long covid"] none 6 "T"
    (by decide)
  refine ⟨h.1, ?_⟩
  have h2 := h.2 (witnessCombined.getD 0 defaultMerged) (by decide) (by decide)
  rw [h2]
  decide

/-- C9: every article of the merged output has a date inside the validity
window (records without a parseable date, or with one outside the window,
were dropped before the merge) and a nonempty queries list. -/
theorem combined_valid_invariant (now : Int) (fetch : String → RawPayloads)
    (queries : List String) (timeframe : Option String) (maxFutureMonths : Int) :
    ∀ a ∈ combine_and_display_results now fetch queries timeframe maxFutureMonths,
      is_valid_date now maxFutureMonths a.date = true ∧ a.queries ≠ [] := by
  intro a ha
  obtain ⟨x, hx, rfl⟩ := combined_mem ha
  obtain ⟨hne, hval⟩ := foldOccs_entry hx
  cases hcc : occsFor (occList (pipelineResults now fetch queries timeframe
      maxFutureMonths)) x.1 with
  | nil => exact absurd hcc hne
  | cons o0 rest =>
    rw [hval, hcc, mergedOf_cons]
    constructor
    · have ho : o0 ∈ occList (pipelineResults now fetch queries timeframe maxFutureMonths) := by
        have hmem : o0 ∈ occsFor (occList (pipelineResults now fetch queries timeframe
            maxFutureMonths)) x.1 := by
          rw [hcc]
          exact List.mem_cons_self _ _
        exact (List.mem_filter.1 hmem).1
      obtain ⟨qr, hqr, hsr⟩ := mem_occList ho
      obtain ⟨qq, hqq, rfl⟩ := List.mem_map.1 hqr
      exact search_articles_valid hsr
    · simp

set_option maxRecDepth 100000 in
set_option maxHeartbeats 1000000 in
/-- C9 witness: in the witness pipeline run the first merged article's date
passes the validity window and its queries list is nonempty. -/
theorem combined_valid_invariant_witness :
    is_valid_date 777600 6 (witnessCombined.getD 0 defaultMerged).date = true
    ∧ (witnessCombined.getD 0 defaultMerged).queries ≠ [] :=
  combined_valid_invariant 777600 witnessFetch ["covid", "long covid"] none 6
    (witnessCombined.getD 0 defaultMerged) (by decide)

/-- C10: when a repeated extracted title is encountered during the merge,
only the stored article's queries list changes: the merged article keeps
the date, color and html (and per-query tag) of the first occurrence, and
every later occurrence's date, color and html are discarded — even when
the later occurrence is more recent. -/
theorem merge_keeps_first_occurrence_fields (now : Int) (fetch : String → RawPayloads)
    (queries : List String) (timeframe : Option String) (maxFutureMonths : Int)
    (t q0 : String) (r0 : SearchResult) (rest : List (String × SearchResult))
    (hocc : occsFor (occList (pipelineResults now fetch queries timeframe maxFutureMonths)) t
      = (q0, r0) :: rest) :
    ∀ a ∈ combine_and_display_results now fetch queries timeframe maxFutureMonths,
      extract_title a.html = t →
        a.date = r0.date ∧ a.color = r0.color ∧ a.html = r0.html
          ∧ a.queries = q0 :: rest.map Prod.fst := by
  intro a ha hat
  obtain ⟨x, hx, rfl⟩ := combined_mem ha
  have htitle := foldOccs_entry_title hx
  have hx1 : x.1 = t := by rw [← htitle, hat]
  obtain ⟨hne, hval⟩ := foldOccs_entry hx
  rw [hx1, hocc, mergedOf_cons] at hval
  rw [hval]
  refine ⟨rfl, rfl, rfl, ?_⟩
  simp

set_option maxRecDepth 100000 in
set_option maxHeartbeats 1000000 in
/-- C10 witness: the `"long covid"` occurrence of title `T` is dated
1970-01-12, two days more recent than the stored `"covid"` occurrence, yet
the merged article keeps the first occurrence's date (1970-01-10), color
and html, and only gains the second query. -/
theorem merge_keeps_first_occurrence_fields_witness :
    (witnessCombined.getD 0 defaultMerged).date = (witnessOccs.getD 0 defaultOcc).2.date
    ∧ (witnessCombined.getD 0 defaultMerged).color = (witnessOccs.getD 0 defaultOcc).2.color
    ∧ (witnessCombined.getD 0 defaultMerged).html = (witnessOccs.getD 0 defaultOcc).2.html
    ∧ (witnessCombined.getD 0 defaultMerged).queries
        = (witnessOccs.getD 0 defaultOcc).1 :: (witnessOccs.drop 1).map Prod.fst :=
  merge_keeps_first_occurrence_fields 777600 witnessFetch ["covid", "long covid"] none 6
    "T" (witnessOccs.getD 0 defaultOcc).1 (witnessOccs.getD 0 defaultOcc).2
    (witnessOccs.drop 1) (by decide)
    (witnessCombined.getD 0 defaultMerged) (by decide) (by decide)

end PubmedSearch
